import Mathlib

/-!
Verification development for `mythril/analysis/solver.py` (module of analysis
helpers that solve path constraints and extract concrete transaction
sequences).  The Python source is shallowly embedded: symbolic bit-vector
expressions become an inductive `SExpr`, the constraint container becomes
`List Constraint`, the external z3 `Optimize` session becomes an oracle
parameter, and the z3 model becomes a pair of evaluation functions.  Machine
integers are `Nat` with explicit `% 2 ^ w` where the source builds
`BitVecVal(v, w)` values; fallible code returns `Except`/`Option`.
-/

set_option maxRecDepth 4000

namespace Myth

/-- Python strings are modelled as lists of characters. -/
abbrev Str := List Char

/-- Symbolic bit-vector expressions (`mythril.laser.smt` values).  The source
only needs: literal bit-vector values (`symbol_factory.BitVecVal`), free
symbolic variables (transaction fields such as `call_value`, `caller`,
`calldatasize`), reads of a world state's `starting_balances` array at an
index expression, and applications of the uninterpreted keccak inverse
function of a given input width (`keccak_function_manager.get_function`). -/
inductive SExpr : Type where
  | bvVal (v : Nat) (w : Nat)
  | bvVar (name : String) (w : Nat)
  | sbSelect (wsId : String) (idx : SExpr)
  | keccakInv (w : Nat) (arg : SExpr)
deriving DecidableEq

/-- Symbolic boolean expressions over bit-vectors: `UGE(a, b)` (unsigned
`a ≥ b`, from `mythril.laser.smt.UGE`) and equality. -/
inductive BExpr : Type where
  | uge (a b : SExpr)
  | beq (a b : SExpr)
deriving DecidableEq

/-- One entry of a constraint collection.  In the source an entry is either a
Python `bool` literal (`type(constraint) == bool`) or a genuine symbolic
expression. -/
inductive Constraint : Type where
  | lit (b : Bool)
  | sym (e : BExpr)
deriving DecidableEq

/-- An assignment of concrete values to all symbolic inputs: free variables,
the starting-balance arrays (per world-state identifier), and the
uninterpreted keccak-inverse functions (per width). -/
structure Assignment : Type where
  vars : String → Nat → Nat
  sbal : String → Nat → Nat
  hinv : Nat → Nat → Nat

/-- Value of a symbolic expression under an assignment; every node is reduced
modulo `2 ^ width` exactly as the corresponding bit-vector is. -/
def SExpr.evalA (a : Assignment) : SExpr → Nat
  | SExpr.bvVal v w => v % 2 ^ w
  | SExpr.bvVar n w => a.vars n w % 2 ^ w
  | SExpr.sbSelect wsId idx => a.sbal wsId (SExpr.evalA a idx) % 2 ^ 256
  | SExpr.keccakInv w arg => a.hinv w (SExpr.evalA a arg) % 2 ^ w

/-- Truth value of a symbolic boolean expression under an assignment. -/
def BExpr.evalA (a : Assignment) : BExpr → Bool
  | BExpr.uge x y => decide (SExpr.evalA a y ≤ SExpr.evalA a x)
  | BExpr.beq x y => decide (SExpr.evalA a x = SExpr.evalA a y)

/-- Truth value of one constraint entry under an assignment. -/
def Constraint.evalA (a : Assignment) : Constraint → Bool
  | Constraint.lit b => b
  | Constraint.sym e => BExpr.evalA a e

/-- A constraint set is satisfiable when some assignment makes every entry
true.  This is the semantic notion the external solver decides. -/
def SatC (cs : List Constraint) : Prop :=
  ∃ a : Assignment, ∀ c ∈ cs, Constraint.evalA a c = true

/-- A z3 model, as the source uses it: `evalComplete e` is
`model.eval(e, model_completion=True).as_long()` (always yields a number);
`evalOpt e` is `model.eval(e).as_long()`, which raises `AttributeError`
when the evaluated expression is not a numeral — modelled as `none`. -/
structure ZModel : Type where
  evalComplete : SExpr → Nat
  evalOpt : SExpr → Option Nat

/-- Result of `Optimize.check()`: `sat` (with the model that `s.model()`
then returns), `unsat`, or `unknown` (e.g. solver timeout). -/
inductive CheckResult : Type where
  | sat (m : ZModel)
  | unsat
  | unknown

/-- The external SMT solver as a black box: given the added constraints, the
minimize and maximize objectives and the timeout that were set on the
session, report a check result. -/
structure SolverOracle : Type where
  check : List Constraint → List SExpr → List SExpr → Int → CheckResult

/-- Error kinds this embedding can surface: `unsat` is mythril's
`UnsatError`; `indexError` is Python's `IndexError` (empty-sequence
subscript); `valueError` is Python's `ValueError` (failed `int(…, 16)`). -/
inductive PyErr : Type where
  | unsat
  | indexError
  | valueError
deriving DecidableEq

/-- The timeout actually used by `get_model`:
`timeout = analysis_args.solver_timeout` and, when
`enforce_execution_time` is set,
`timeout = min(timeout, time_handler.time_remaining() - 500)`. -/
def effTimeout (enforce : Bool) (solver_timeout time_remaining : Int) : Int :=
  if enforce then min solver_timeout (time_remaining - 500) else solver_timeout

/-- Test whether `type(constraint) == bool and not constraint` holds for some entry. -/
def hasLitFalse (cs : List Constraint) : Bool :=
  cs.any fun c =>
    match c with
    | Constraint.lit b => !b
    | Constraint.sym _ => false

/-- Model of `[constraint for constraint in constraints if type(constraint) != bool]`:
the constraints actually handed to the solver session. -/
def submittedConstraints (cs : List Constraint) : List Constraint :=
  cs.filter fun c =>
    match c with
    | Constraint.lit _ => false
    | Constraint.sym _ => true

/-- Body of `get_model` (without the `lru_cache` wrapper).  Returns the
result (`Except.error PyErr.unsat` models raising `UnsatError`) together
with the number of times the external solver was invoked (`s.check()`),
which is 0 or 1.  `solver_timeout` is `analysis_args.solver_timeout` and
`time_remaining` is `time_handler.time_remaining()`. -/
def getModelCore (oracle : SolverOracle) (solver_timeout time_remaining : Int)
    (cs : List Constraint) (mi ma : List SExpr) (enforce : Bool) :
    Except PyErr ZModel × Nat :=
  if enforce = true ∧ effTimeout enforce solver_timeout time_remaining ≤ 0 then
    (Except.error PyErr.unsat, 0)
  else if hasLitFalse cs = true then (Except.error PyErr.unsat, 0)
  else
    match oracle.check (submittedConstraints cs) mi ma
        (effTimeout enforce solver_timeout time_remaining) with
    | CheckResult.sat m => (Except.ok m, 1)
    | CheckResult.unsat => (Except.error PyErr.unsat, 1)
    | CheckResult.unknown => (Except.error PyErr.unsat, 1)

/-- Cache key of the `lru_cache` wrapper on `get_model`: the argument tuple
`(constraints, minimize, maximize, enforce_execution_time)`. -/
abbrev SolveKey := List Constraint × List SExpr × List SExpr × Bool

/-- Modelled from the spec: mythril's `Constraints` container
(`mythril/laser/ethereum/state/constraints.py`, not under `src/`) is hashable
with content-based equality, so the `lru_cache` key compares by expression
content; the cache maps keys to previously returned models.  The
`maxsize=2 ** 23` LRU eviction bound governs memory only and is not
modelled. -/
structure SolveCache : Type where
  entries : List (SolveKey × ZModel)

/-- Content-based cache lookup. -/
def cacheLookup (c : SolveCache) (k : SolveKey) : Option ZModel :=
  (c.entries.find? fun e => decide (e.1 = k)).map Prod.snd

/-- The function `get_model` with its `functools.lru_cache` wrapper.  On a cache hit the
body is not entered at all (0 solver invocations).  On a miss the body runs;
per `lru_cache` semantics only a successful return value is stored — a call
that raises `UnsatError` caches nothing.  Returns (result, new cache state,
number of solver invocations performed by this call). -/
def get_model (oracle : SolverOracle) (solver_timeout time_remaining : Int)
    (cache : SolveCache) (cs : List Constraint) (mi ma : List SExpr)
    (enforce : Bool) : Except PyErr ZModel × SolveCache × Nat :=
  match cacheLookup cache (cs, mi, ma, enforce) with
  | some m => (Except.ok m, cache, 0)
  | none =>
    let r := getModelCore oracle solver_timeout time_remaining cs mi ma enforce
    match r.1 with
    | Except.ok m =>
        (Except.ok m, SolveCache.mk (((cs, mi, ma, enforce), m) :: cache.entries), r.2)
    | Except.error e => (Except.error e, cache, r.2)

/-! ### Python string helpers

Exact models of the Python string operations the source uses on its hex
strings: `hex(...)`, `"%x" % ...`, `str.zfill`, slicing, substring test
(`in`), `str.replace`, and `int(..., 16)`. -/

/-- Python's `hex(n)` for a non-negative integer: `"0x"` followed by lowercase hex
digits, `hex(0) = "0x0"`. -/
def pyHex (n : Nat) : Str :=
  '0' :: 'x' :: Nat.toDigits 16 n

/-- Python's `s.zfill(w)`: left-pad with `'0'` to length at least `w`. -/
def zfill (s : Str) (w : Nat) : Str :=
  List.replicate (w - s.length) '0' ++ s

/-- Rendering of one call-data byte in `_get_concrete_transaction`:
`hex(b)[2:] if len(hex(b)) % 2 == 0 else "0" + hex(b)[2:]`. -/
def byteHex (b : Nat) : Str :=
  let ds := Nat.toDigits 16 b
  if (2 + ds.length) % 2 = 0 then ds else '0' :: ds

/-- Python's `s[a:b]` for `0 ≤ a ≤ b` (Python clamps out-of-range bounds). -/
def pySlice (s : Str) (a b : Nat) : Str :=
  (s.take b).drop a

/-- Python's `needle in hay` (contiguous substring test). -/
def containsSub (hay needle : Str) : Bool :=
  (List.range (hay.length + 1)).any fun j => needle.isPrefixOf (hay.drop j)

/-- Fuelled worker for `str.replace`: replaces all non-overlapping
occurrences of `old` left to right (Python semantics, including the
empty-`old` case). -/
def replaceAllAux : Nat → Str → Str → Str → Str
  | 0, s, _, _ => s
  | _ + 1, [], old, new => if old.isEmpty then new else []
  | fuel + 1, c :: rest, old, new =>
    if old.isEmpty then new ++ c :: replaceAllAux fuel rest old new
    else if old.isPrefixOf (c :: rest) then
      new ++ replaceAllAux fuel ((c :: rest).drop old.length) old new
    else c :: replaceAllAux fuel rest old new

/-- Python's `s.replace(old, new)`.  Fuel `s.length + 1` suffices: every recursive
step consumes at least one character of `s`. -/
def replaceAll (s old new : Str) : Str :=
  replaceAllAux (s.length + 1) s old new

/-- Value of one hexadecimal digit (Python `int` accepts both cases). -/
def hexDigitVal (c : Char) : Option Nat :=
  if 48 ≤ c.toNat ∧ c.toNat ≤ 57 then some (c.toNat - 48)
  else if 97 ≤ c.toNat ∧ c.toNat ≤ 102 then some (c.toNat - 97 + 10)
  else if 65 ≤ c.toNat ∧ c.toNat ≤ 70 then some (c.toNat - 65 + 10)
  else none

/-- Accumulator worker for `int(s, 16)`. -/
def parseHexAux : Str → Nat → Option Nat
  | [], acc => some acc
  | c :: rest, acc =>
    match hexDigitVal c with
    | none => none
    | some d => parseHexAux rest (acc * 16 + d)

/-- Python's `int(s, 16)` on the strings reachable here: digit strings parse to their
value, anything else (including the empty string) raises `ValueError`
(`none`).  Python's `int` additionally tolerates surrounding whitespace, a
sign, a `0x` prefix and underscores; none of those character shapes occur in
the hex windows the resolver scans (they sit strictly inside a `0x…`-hex
payload), so this domain restriction is observation-equivalent there. -/
def parseHexPy (s : Str) : Option Nat :=
  if s.isEmpty then none else parseHexAux s 0

/-! ### Data model: accounts, world state, transactions -/

/-- Contract code: carries the deployment bytecode hex string
(`code.bytecode`). -/
structure Code : Type where
  bytecode : Str
deriving DecidableEq

/-- An account record as the extractor reads it: the dictionary key/address
(`address`), `nonce`, `code`, and the string rendering of its storage
(`str(account.storage)` is applied by the extractor; we carry the rendered
form). -/
structure Account : Type where
  address : Nat
  nonce : Nat
  code : Code
  storage : Str
deriving DecidableEq

/-- Symbolic call data: a symbolic `calldatasize` plus the symbolic byte
sequence; `concrete(model)` evaluates each byte under the model (with model
completion), as the source's `transaction.call_data.concrete(model)` does. -/
structure Calldata : Type where
  calldatasize : SExpr
  bytes : List SExpr

/-- Evaluation `call_data.concrete(model)`. -/
def Calldata.concrete (cd : Calldata) (m : ZModel) : List Nat :=
  cd.bytes.map m.evalComplete

/-- Transaction kind: `ContractCreationTransaction` (which carries its
deployment `code`) versus a plain message call. -/
inductive TxKind : Type where
  | creation (code : Code)
  | message

mutual
/-- A world state: `accounts` (address-keyed mapping, in iteration order),
the identifier of its `starting_balances` array, and its
`transaction_sequence`. -/
inductive WorldState : Type where
  | mk (accounts : List (Nat × Account)) (sbId : String)
      (transaction_sequence : List BaseTransaction) : WorldState

/-- One symbolic transaction: its pre-execution world-state snapshot, callee
account, symbolic caller, call value, call data, and kind. -/
inductive BaseTransaction : Type where
  | mk (world_state : WorldState) (callee_account : Account)
      (caller : SExpr) (call_value : SExpr) (call_data : Calldata)
      (kind : TxKind) : BaseTransaction
end

def WorldState.accounts : WorldState → List (Nat × Account)
  | WorldState.mk a _ _ => a

def WorldState.sbId : WorldState → String
  | WorldState.mk _ s _ => s

def WorldState.transaction_sequence : WorldState → List BaseTransaction
  | WorldState.mk _ _ t => t

def BaseTransaction.world_state : BaseTransaction → WorldState
  | BaseTransaction.mk w _ _ _ _ _ => w

def BaseTransaction.callee_account : BaseTransaction → Account
  | BaseTransaction.mk _ a _ _ _ _ => a

def BaseTransaction.caller : BaseTransaction → SExpr
  | BaseTransaction.mk _ _ c _ _ _ => c

def BaseTransaction.call_value : BaseTransaction → SExpr
  | BaseTransaction.mk _ _ _ v _ _ => v

def BaseTransaction.call_data : BaseTransaction → Calldata
  | BaseTransaction.mk _ _ _ _ d _ => d

def BaseTransaction.kind : BaseTransaction → TxKind
  | BaseTransaction.mk _ _ _ _ _ k => k

/-- The read `world_state.starting_balances[idx]`: a select from the world state's
starting-balances array. -/
def startingBalance (ws : WorldState) (idx : SExpr) : SExpr :=
  SExpr.sbSelect ws.sbId idx

/-- The global state handed to `get_transaction_sequence`. -/
structure GlobalState : Type where
  world_state : WorldState

/-! ### Minimisation constraint builder -/

/-- The constraints `_set_minimisation_constraints` appends, in append
order: per transaction, `UGE(BitVecVal(max_size, 256), calldatasize)` and
`UGE(BitVecVal(10^21, 256), starting_balances[caller])`; then, per world
state account, `UGE(BitVecVal(10^20, 256), starting_balances[address])`
(source comment: "Each account starts with less than 100 ETH"). -/
def minimisationAppends (ts : List BaseTransaction) (max_size : Nat)
    (ws : WorldState) : List Constraint :=
  (ts.flatMap fun t =>
    [Constraint.sym (BExpr.uge (SExpr.bvVal max_size 256) t.call_data.calldatasize),
     Constraint.sym (BExpr.uge (SExpr.bvVal 1000000000000000000000 256)
       (startingBalance ws t.caller))]) ++
  ws.accounts.map fun p =>
    Constraint.sym (BExpr.uge (SExpr.bvVal 100000000000000000000 256)
      (startingBalance ws (SExpr.bvVal p.2.address 256)))

/-- The minimisation objectives appended per transaction: `calldatasize`
then `call_value`. -/
def minimiseAppends (ts : List BaseTransaction) : List SExpr :=
  ts.flatMap fun t => [t.call_data.calldatasize, t.call_value]

/-- Model of `_set_minimisation_constraints(transaction_sequence, constraints,
minimize, max_size, world_state)`: returns the augmented constraint list and
the minimisation list (the source returns `tuple(minimize)`). -/
def _set_minimisation_constraints (ts : List BaseTransaction)
    (constraints : List Constraint) (minimize : List SExpr) (max_size : Nat)
    (ws : WorldState) : List Constraint × List SExpr :=
  (constraints ++ minimisationAppends ts max_size ws,
   minimize ++ minimiseAppends ts)

/-! ### Concrete state extractor -/

/-- One emitted concrete transaction record (string-valued dictionary with
keys `input`, `value`, `origin`, `address`). -/
structure CTx : Type where
  input : Str
  value : Str
  origin : Str
  address : Str
deriving DecidableEq

/-- One emitted concrete account record. -/
structure AccountOut : Type where
  nonce : Nat
  code : Str
  storage : Str
  balance : Str
deriving DecidableEq

/-- The emitted `initialState` structure. -/
structure InitialState : Type where
  accounts : List (Str × AccountOut)
deriving DecidableEq

/-- The structure returned by `get_transaction_sequence`:
`{"initialState": …, "steps": …}`. -/
structure TxOut : Type where
  initialState : InitialState
  steps : List CTx
deriving DecidableEq

/-- Model of `_get_concrete_transaction(model, transaction)`. -/
def _get_concrete_transaction (m : ZModel) (t : BaseTransaction) : CTx :=
  let address0 := pyHex t.callee_account.address
  let value := m.evalComplete t.call_value
  let caller := '0' :: 'x' :: zfill (Nat.toDigits 16 (m.evalComplete t.caller)) 40
  let ai : Str × Str :=
    match t.kind with
    | TxKind.creation code => ([], code.bytecode)
    | TxKind.message => (address0, [])
  let input0 := ai.2 ++ ((t.call_data.concrete m).map byteHex).foldr
    (fun x acc => x ++ acc) []
  { input := '0' :: 'x' :: input0,
    value := '0' :: 'x' :: Nat.toDigits 16 value,
    origin := caller,
    address := ai.1 }

/-- Model of `_get_concrete_state(initial_accounts, min_price_dict)`. -/
def _get_concrete_state (initial_accounts : List (Nat × Account))
    (min_price_dict : List (Nat × Nat)) : InitialState :=
  { accounts := initial_accounts.map fun p =>
      (pyHex p.1,
       { nonce := p.2.nonce,
         code := p.2.code.bytecode,
         storage := p.2.storage,
         balance := pyHex ((min_price_dict.lookup p.1).getD 0) }) }

/-! ### Hash preimage resolver -/

/-- The `keccak_function_manager` interface (external collaborator, spec
section 6 "From the hash-function registry"): the marker substring
(`hash_matcher`), the registered input widths (`store_function` iteration
order), and `find_concrete_keccak` applied to a `size`-wide concrete input
(the returned digest is a 256-bit bit-vector, so callers read
`keccak.value < 2 ^ 256` in realistic instances). -/
structure KeccakManager : Type where
  hash_matcher : Str
  store_function : List Nat
  find_concrete_keccak : Nat → Nat → Nat

/-- Inner loop of `_replace_with_actual_sha` over
`keccak_function_manager.store_function`: for each registered `size`,
`model.eval(inverse(find_input).raw).as_long()` either raises
`AttributeError` (`none`: try the next width) or yields a candidate
`input_ = BitVecVal(raw, size)`; if the candidate's hex appears in some
transaction's input string, stop; otherwise keep it and continue scanning.
`acc` is the current value of the Python variable `input_`. -/
def searchSizes (mdl : ZModel) (txs : List CTx) (find_input : Nat) :
    List Nat → Option (Nat × Nat) → Option (Nat × Nat)
  | [], acc => acc
  | size :: rest, acc =>
    match mdl.evalOpt (SExpr.keccakInv size (SExpr.bvVal find_input 256)) with
    | none => searchSizes mdl txs find_input rest acc
    | some raw =>
      let inputVal := raw % 2 ^ size
      let hex_input := Nat.toDigits 16 inputVal
      if txs.any fun t => containsSub t.input hex_input then some (size, inputVal)
      else searchSizes mdl txs find_input rest (some (size, inputVal))

/-- Processing of one 64-character window starting at index `i` of the
current transaction's input `cur` (the body of the
`for i in range(s_index, len(tx["input"]), 64)` loop).  `txs` is the current
state of the whole transaction list (the preimage-visibility search reads
it).  Returns the transaction's new input string, or `ValueError` when the
window is scanned but `int(data_slice, 16)` fails. -/
def processWindow (km : KeccakManager) (mdl : ZModel) (txs : List CTx)
    (cur : Str) (sIndex i : Nat) : Except PyErr Str :=
  let data_slice := pySlice cur i (i + 64)
  if ¬ containsSub data_slice km.hash_matcher = true ∨ data_slice.length ≠ 64 then
    Except.ok cur
  else
    match parseHexPy data_slice with
    | none => Except.error PyErr.valueError
    | some n =>
      let find_input := n % 2 ^ 256
      match searchSizes mdl txs find_input km.store_function none with
      | none => Except.ok cur
      | some sv =>
        let keccak := km.find_concrete_keccak sv.1 sv.2
        let hk := pyHex keccak
        let hex_keccak :=
          if hk.length ≠ 66 then
            '0' :: 'x' :: (List.replicate (66 - hk.length) '0' ++ hk.drop 2)
          else hk
        Except.ok (cur.take sIndex ++
          replaceAll (cur.drop sIndex) (pySlice cur i (64 + i)) (hex_keccak.drop 2))

/-- Error-propagating left fold: runs `step` over the elements in order,
threading the state, stopping at the first error — the semantics of a
Python `for` loop whose body may raise. -/
def foldE {α β : Type} (step : α → β → Except PyErr α) : α → List β → Except PyErr α
  | s, [] => Except.ok s
  | s, b :: t =>
    match step s b with
    | Except.error e => Except.error e
    | Except.ok s2 => foldE step s2 t

/-- Replace transaction `k`'s input by `s`, leaving every other field and
every other transaction untouched (the in-place `tx["input"] = …`). -/
def setInput (txs : List CTx) (k : Nat) (s : Str) : List CTx :=
  match txs[k]? with
  | none => txs
  | some tx => txs.set k { tx with input := s }

/-- One window step acting on the transaction list state: re-reads
transaction `k`'s current input (as the Python body re-reads `tx["input"]`
each iteration) and stores the rewritten string back. -/
def processWindowAt (km : KeccakManager) (mdl : ZModel) (sIndex k : Nat)
    (txs : List CTx) (i : Nat) : Except PyErr (List CTx) :=
  match txs[k]? with
  | none => Except.ok txs
  | some tx =>
    match processWindow km mdl txs tx.input sIndex i with
    | Except.error e => Except.error e
    | Except.ok s => Except.ok (setInput txs k s)

/-- The scan offset for one transaction:
`len(code.bytecode) + 10` when a creation code was passed and its bytecode
occurs in the input, else `10`. -/
def sIndexOf (code? : Option Code) (tx : CTx) : Nat :=
  match code? with
  | some code =>
    if containsSub tx.input code.bytecode then code.bytecode.length + 10 else 10
  | none => 10

/-- Python `range(start, stop, step)` for positive `step`. -/
def rangeStep (start stop step : Nat) : List Nat :=
  (List.range ((stop - start + step - 1) / step)).map fun j => start + j * step

/-- Processing of the `k`-th transaction (one iteration of the outer
`for tx in concrete_transactions` loop): skip when the marker does not occur
in its input; otherwise compute `s_index` once, fix the window index range
from the current input length, and run the window loop. -/
def processTxAt (km : KeccakManager) (mdl : ZModel) (code? : Option Code)
    (txs : List CTx) (k : Nat) : Except PyErr (List CTx) :=
  match txs[k]? with
  | none => Except.ok txs
  | some tx =>
    if ¬ containsSub tx.input km.hash_matcher = true then Except.ok txs
    else
      let sIndex := sIndexOf code? tx
      foldE (processWindowAt km mdl sIndex k) txs (rangeStep sIndex tx.input.length 64)

/-- Model of `_replace_with_actual_sha(concrete_transactions, model, code)`.  The
Python function mutates the list in place and returns `None`; the embedding
returns the final list state.  An uncaught `ValueError` from
`int(data_slice, 16)` surfaces as `Except.error`. -/
def _replace_with_actual_sha (km : KeccakManager) (mdl : ZModel)
    (txs : List CTx) (code? : Option Code) : Except PyErr (List CTx) :=
  foldE (processTxAt km mdl code?) txs (List.range txs.length)

/-! ### `get_transaction_sequence` -/

/-- The per-address evaluated starting balances (`min_price_dict`):
`model.eval(initial_world_state.starting_balances[BitVecVal(address, 256)].raw,
model_completion=True).as_long()` for each key of `initial_accounts`. -/
def minPriceDict (m : ZModel) (ws : WorldState) : List (Nat × Nat) :=
  ws.accounts.map fun p =>
    (p.1, m.evalComplete (startingBalance ws (SExpr.bvVal p.1 256)))

/-- The `code` argument passed to the resolver: the first transaction's
deployment code when it is a `ContractCreationTransaction`, else none. -/
def codeOf (t : BaseTransaction) : Option Code :=
  match t.kind with
  | TxKind.creation code => some code
  | TxKind.message => none

/-- Model of `get_transaction_sequence(global_state, constraints)`.  The solve uses
the augmented constraints/objectives built from a copy of the caller's
constraints (the copy is value-transparent here; the reference-level frame
property is modelled separately via `CStore`).  The `lru_cache` on
`get_model` is value-transparent for a fixed oracle, so the uncached body is
used. -/
def get_transaction_sequence (km : KeccakManager) (oracle : SolverOracle)
    (solver_timeout time_remaining : Int) (gs : GlobalState)
    (constraints : List Constraint) : Except PyErr TxOut :=
  let ts := gs.world_state.transaction_sequence
  let built := _set_minimisation_constraints ts constraints [] 5000 gs.world_state
  match (getModelCore oracle solver_timeout time_remaining built.1 built.2 [] true).1 with
  | Except.error e => Except.error e
  | Except.ok model =>
    match ts with
    | [] => Except.error PyErr.indexError
    | t0 :: rest =>
      let concrete_transactions := (t0 :: rest).map (_get_concrete_transaction model)
      let concrete_initial_state :=
        _get_concrete_state t0.world_state.accounts (minPriceDict model t0.world_state)
      match _replace_with_actual_sha km model concrete_transactions (codeOf t0) with
      | Except.error e => Except.error e
      | Except.ok steps =>
        Except.ok { initialState := concrete_initial_state, steps := steps }

/-! ### Reference-level model of the constraints object (for the frame
property of `get_transaction_sequence`) -/

/-- Modelled from the spec: mythril's `Constraints` container
(`mythril/laser/ethereum/state/constraints.py`, not under `src/`) is a
mutable list-like object passed by reference; `copy()` returns a fresh
independent object with equal content and `append` mutates the receiver in
place.  References are indices into a store of constraint lists. -/
structure CStore : Type where
  lists : List (List Constraint)

/-- Content of the constraints object behind reference `r`. -/
def readRef (st : CStore) (r : Nat) : List Constraint :=
  (st.lists[r]?).getD []

/-- Mutation `obj.append(c)` on the object behind `r`. -/
def appendRef (st : CStore) (r : Nat) (c : Constraint) : CStore :=
  CStore.mk (st.lists.set r (readRef st r ++ [c]))

/-- Copying `obj.copy()`: allocate a fresh object with the same content; returns the
new store and the fresh reference. -/
def copyRef (st : CStore) (r : Nat) : CStore × Nat :=
  (CStore.mk (st.lists ++ [readRef st r]), st.lists.length)

/-- All `constraints.append(…)` calls `_set_minimisation_constraints`
performs, applied to the object behind `r`. -/
def appendAllRef (st : CStore) (r : Nat) (cs : List Constraint) : CStore :=
  cs.foldl (fun s c => appendRef s r c) st

/-- The effect of `get_transaction_sequence` on the caller's constraints
object: line 102 copies it (`constraints.copy()`) and
`_set_minimisation_constraints` appends only to the copy; no other
statement touches a constraints object. -/
def gtsConstraintStoreEffect (gs : GlobalState) (st : CStore) (r : Nat) : CStore :=
  let c := copyRef st r
  appendAllRef c.1 c.2
    (minimisationAppends gs.world_state.transaction_sequence 5000 gs.world_state)

/-- Decidable equality of `Except` results, for concrete evaluation. -/
instance instDecEqExcept {ε α : Type} [DecidableEq ε] [DecidableEq α] :
    DecidableEq (Except ε α) := fun a b =>
  match a, b with
  | Except.ok x, Except.ok y =>
    if h : x = y then Decidable.isTrue (by rw [h])
    else Decidable.isFalse (by intro hc; cases hc; exact h rfl)
  | Except.error x, Except.error y =>
    if h : x = y then Decidable.isTrue (by rw [h])
    else Decidable.isFalse (by intro hc; cases hc; exact h rfl)
  | Except.ok _, Except.error _ => Decidable.isFalse (by intro hc; cases hc)
  | Except.error _, Except.ok _ => Decidable.isFalse (by intro hc; cases hc)

/-! ### Auxiliary predicates about the resolver -/

/-- A window of `cur` at index `i` is inert when its processing step cannot
act: either the window is skipped (marker absent or short tail window), or
it parses and no candidate preimage is obtained at any registered width. -/
def windowInert (km : KeccakManager) (mdl : ZModel) (txs : List CTx)
    (cur : Str) (i : Nat) : Bool :=
  let data_slice := pySlice cur i (i + 64)
  if ¬ containsSub data_slice km.hash_matcher = true ∨ data_slice.length ≠ 64 then true
  else
    match parseHexPy data_slice with
    | none => false
    | some n => (searchSizes mdl txs (n % 2 ^ 256) km.store_function none).isNone

/-- A transaction is inert (relative to list state `txs`) when the resolver
skips it or every one of its scanned windows is inert. -/
def txInert (km : KeccakManager) (mdl : ZModel) (txs : List CTx)
    (code? : Option Code) (tx : CTx) : Bool :=
  if ¬ containsSub tx.input km.hash_matcher = true then true
  else
    (rangeStep (sIndexOf code? tx) tx.input.length 64).all
      (windowInert km mdl txs tx.input)

/-- A transaction list is inert when every transaction is. -/
def inertTxs (km : KeccakManager) (mdl : ZModel) (code? : Option Code)
    (txs : List CTx) : Bool :=
  txs.all (txInert km mdl txs code?)

/-- Every character from offset 10 on is a hexadecimal digit.  All inputs
emitted by `_get_concrete_transaction` satisfy this (they are `0x` plus hex
digits), and every window the resolver scans starts at an offset of at
least 10. -/
def hexFrom10 (s : Str) : Bool :=
  (s.drop 10).all fun c => (hexDigitVal c).isSome

/-- Two concrete transactions agree on every field except possibly `input`
(the only field the resolver rewrites). -/
def skel (x y : CTx) : Prop :=
  x.value = y.value ∧ x.origin = y.origin ∧ x.address = y.address

/-- Positional field correspondence between two transaction lists: same
length, and at every position the records agree except possibly on
`input`. -/
def SK (a b : List CTx) : Prop :=
  List.Forall₂ skel a b

/-! ### Concrete fixtures for witnesses and counterexamples -/

/-- A model that completes every expression to `0` and evaluates nothing
to a numeral without completion. -/
def m0 : ZModel :=
  { evalComplete := fun _ => 0, evalOpt := fun _ => none }

/-- An oracle that always reports `sat` with model `m0`. -/
def oracleSatM0 : SolverOracle :=
  { check := fun _ _ _ _ => CheckResult.sat m0 }

/-- An oracle that always reports `unsat`. -/
def oracleUnsat0 : SolverOracle :=
  { check := fun _ _ _ _ => CheckResult.unsat }

/-- An oracle that always reports `unknown` (e.g. it always times out). -/
def oracleUnknown0 : SolverOracle :=
  { check := fun _ _ _ _ => CheckResult.unknown }

/-- A one-entry symbolic constraint list. -/
def csX : List Constraint :=
  [Constraint.sym (BExpr.uge (SExpr.bvVar ("x") 256) (SExpr.bvVal 0 256))]

/-- The per-account balance bound `_set_minimisation_constraints` appends:
`UGE(BitVecVal(10^20, 256), starting_balances[address])`. -/
def balBound (wsId : String) (a : Nat) : Constraint :=
  Constraint.sym (BExpr.uge (SExpr.bvVal 100000000000000000000 256)
    (SExpr.sbSelect wsId (SExpr.bvVal a 256)))

/-- A constraint pinning an account's starting balance to the value `c`. -/
def balPin (wsId : String) (a c : Nat) : Constraint :=
  Constraint.sym (BExpr.beq (SExpr.sbSelect wsId (SExpr.bvVal a 256))
    (SExpr.bvVal c 256))

/-- A world state with a single account (address `0xaffe = 45054`) and no
transactions. -/
def acct1 : Account :=
  { address := 45054, nonce := 0, code := { bytecode := [] }, storage := [] }

def ws1 : WorldState := WorldState.mk [(45054, acct1)] "w0" []

/-- A 64-hex-digit marker window: `fffffff` followed by 57 `0`s. -/
def w064 : Str := "fffffff".data ++ List.replicate 57 '0'

/-- A 64-hex-digit digest that itself re-matches the marker: `fffffff`
followed by 57 `1`s. -/
def d64 : Str := "fffffff".data ++ List.replicate 57 '1'

/-- A 64-hex-digit digest with no marker: 64 `e`s. -/
def e64 : Str := List.replicate 64 'e'

def w0val : Nat := (parseHexPy w064).getD 0

def dVal : Nat := (parseHexPy d64).getD 0

def eVal : Nat := (parseHexPy e64).getD 0

/-- A keccak-manager instance with mythril's marker shape (`fffffff`), one
registered width, and a concrete forward hash sending input `5` to the
re-matching digest `d64` and input `7` to the marker-free digest `e64`. -/
def km9 : KeccakManager :=
  { hash_matcher := "fffffff".data,
    store_function := [256],
    find_concrete_keccak := fun _ v =>
      if v = 5 then dVal else if v = 7 then eVal else 0 }

/-- A model whose keccak-inverse interpretation maps the original marker
window value to `5` and the substituted digest `d64` to `7` (in z3, a model
evaluates an interpreted uninterpreted function at any point through its
else-branch, so a digest spliced in by a first pass can evaluate again). -/
def m9 : ZModel :=
  { evalComplete := fun _ => 0,
    evalOpt := fun e =>
      match e with
      | SExpr.keccakInv 256 (SExpr.bvVal v 256) =>
        if v = w0val then some 5 else if v = dVal then some 7 else none
      | _ => none }

/-- A concrete transaction whose input holds one marker window. -/
def tx9 : CTx :=
  { input := "0x00000000".data ++ w064,
    value := "0x0".data, origin := "0x0".data, address := [] }

/-- Expected list state after the first resolver pass on `[tx9]`. -/
def r9a : List CTx := [{ tx9 with input := "0x00000000".data ++ d64 }]

/-- Expected list state after the second resolver pass. -/
def r9b : List CTx := [{ tx9 with input := "0x00000000".data ++ e64 }]

/-- A transaction whose marker window contains a non-hex character `g`. -/
def tx8 : CTx :=
  { input := "0x00000000".data ++ ("fffffffg".data ++ List.replicate 56 '0'),
    value := [], origin := [], address := [] }

/-- Fixtures for a one-transaction extraction run. -/
def acct6 : Account :=
  { address := 2748, nonce := 0, code := { bytecode := "6001".data },
    storage := "st0".data }

def cd6 : Calldata := { calldatasize := SExpr.bvVar ("cds") 256, bytes := [] }

def ws6inner : WorldState := WorldState.mk [(2748, acct6)] "w6" []

def tx6 : BaseTransaction :=
  BaseTransaction.mk ws6inner acct6 (SExpr.bvVar ("caller") 256)
    (SExpr.bvVar ("value") 256) cd6 TxKind.message

def gs6 : GlobalState :=
  { world_state := WorldState.mk [(2748, acct6)] "w6" [tx6] }

/-- Expected output of `get_transaction_sequence` on `gs6` under
`oracleSatM0`. -/
def r6 : TxOut :=
  { initialState :=
      { accounts := [("0xabc".data,
          { nonce := 0, code := "6001".data, storage := "st0".data,
            balance := "0x0".data })] },
    steps := [{ input := "0x".data, value := "0x0".data,
                origin := "0x0000000000000000000000000000000000000000".data,
                address := "0xabc".data }] }

/-- A contract-creation transaction fixture with empty constructor
arguments. -/
def code7 : Code := { bytecode := "6080".data }

def cd7 : Calldata := { calldatasize := SExpr.bvVar ("cds7") 256, bytes := [] }

def tx7 : BaseTransaction :=
  BaseTransaction.mk ws6inner acct6 (SExpr.bvVar ("c7") 256)
    (SExpr.bvVar ("v7") 256) cd7 (TxKind.creation code7)

/-- A one-object constraint store. -/
def store10 : CStore := { lists := [[Constraint.lit true]] }

/-- The cache state after one successful solve of `csX`. -/
def cache1fix : SolveCache := SolveCache.mk [((csX, [], [], true), m0)]

/-- A constraint list containing a literal `False`. -/
def cs4 : List Constraint :=
  [Constraint.lit false, Constraint.lit true,
   Constraint.sym (BExpr.uge (SExpr.bvVar ("x") 256) (SExpr.bvVal 0 256))]

/-! ### Helper lemmas: solver core -/

lemma getModelCore_count_le_one (oracle : SolverOracle) (st tr : Int)
    (cs : List Constraint) (mi ma : List SExpr) (enforce : Bool) :
    (getModelCore oracle st tr cs mi ma enforce).2 ≤ 1 := by
  simp only [getModelCore]
  by_cases h1 : enforce = true ∧ effTimeout enforce st tr ≤ 0
  · simp only [if_pos h1]
    exact Nat.zero_le 1
  · simp only [if_neg h1]
    by_cases h2 : hasLitFalse cs = true
    · simp only [if_pos h2]
      exact Nat.zero_le 1
    · simp only [if_neg h2]
      split <;> exact Nat.le_refl 1

lemma getModelCore_oracle_congr (o o2 : SolverOracle) (st tr : Int)
    (cs : List Constraint) (mi ma : List SExpr) (enforce : Bool)
    (h : o.check (submittedConstraints cs) mi ma (effTimeout enforce st tr) =
      o2.check (submittedConstraints cs) mi ma (effTimeout enforce st tr)) :
    getModelCore o st tr cs mi ma enforce = getModelCore o2 st tr cs mi ma enforce := by
  simp only [getModelCore]
  by_cases h1 : enforce = true ∧ effTimeout enforce st tr ≤ 0
  · simp only [if_pos h1]
  · simp only [if_neg h1]
    by_cases h2 : hasLitFalse cs = true
    · simp only [if_pos h2]
    · simp only [if_neg h2, h]

lemma hasLitFalse_of_mem {cs : List Constraint}
    (h : Constraint.lit false ∈ cs) : hasLitFalse cs = true := by
  unfold hasLitFalse
  rw [List.any_eq_true]
  exact ⟨Constraint.lit false, h, rfl⟩

lemma hasLitFalse_eq_false {cs : List Constraint}
    (h : Constraint.lit false ∉ cs) : hasLitFalse cs = false := by
  unfold hasLitFalse
  rw [List.any_eq_false]
  intro c hc hp
  match c with
  | Constraint.lit true => simp at hp
  | Constraint.lit false => exact h hc
  | Constraint.sym e => simp at hp

lemma submitted_not_lit (cs : List Constraint) :
    ∀ c ∈ submittedConstraints cs, ∀ b : Bool, c ≠ Constraint.lit b := by
  intro c hc b he
  unfold submittedConstraints at hc
  rw [List.mem_filter] at hc
  subst he
  simp at hc

/-! ### Helper lemmas: balance-bound satisfiability -/

lemma sat_pin_le (wsId : String) (a c : Nat)
    (hc : c ≤ 100000000000000000000) :
    SatC [balBound wsId a, balPin wsId a c] := by
  have h256 : (100000000000000000000 : Nat) % 2 ^ 256 = 100000000000000000000 :=
    Nat.mod_eq_of_lt (by norm_num)
  have hlt : c < 2 ^ 256 := lt_of_le_of_lt hc (by norm_num)
  refine ⟨⟨fun _ _ => 0, fun _ _ => c, fun _ _ => 0⟩, ?_⟩
  intro cst hm
  rcases List.mem_cons.mp hm with h1 | hm2
  · subst h1
    simp only [balBound, Constraint.evalA, BExpr.evalA, SExpr.evalA, decide_eq_true_eq]
    rw [Nat.mod_eq_of_lt hlt, h256]
    exact hc
  · rcases List.mem_cons.mp hm2 with h2 | h3
    · subst h2
      simp only [balPin, Constraint.evalA, BExpr.evalA, SExpr.evalA, decide_eq_true_eq]
    · cases h3

lemma unsat_pin_gt (wsId : String) (a c : Nat)
    (h1 : 100000000000000000000 < c) (h2 : c < 2 ^ 256) :
    ¬ SatC [balBound wsId a, balPin wsId a c] := by
  rintro ⟨σ, hσ⟩
  have hb := hσ (balBound wsId a) (List.mem_cons_self _ _)
  have hp := hσ (balPin wsId a c) (List.mem_cons_of_mem _ (List.mem_cons_self _ _))
  simp only [balBound, balPin, Constraint.evalA, BExpr.evalA, SExpr.evalA,
    decide_eq_true_eq] at hb hp
  have h256 : (100000000000000000000 : Nat) % 2 ^ 256 = 100000000000000000000 :=
    Nat.mod_eq_of_lt (by norm_num)
  rw [Nat.mod_eq_of_lt h2] at hp
  rw [h256, hp] at hb
  omega

/-! ### Helper lemmas: error-propagating fold -/

lemma foldE_id {α β : Type} (step : α → β → Except PyErr α) (l : List β) (s : α)
    (h : ∀ b ∈ l, step s b = Except.ok s) : foldE step s l = Except.ok s := by
  induction l with
  | nil => rfl
  | cons b t ih =>
    unfold foldE
    rw [h b (List.mem_cons_self b t)]
    exact ih fun c hc => h c (List.mem_cons_of_mem b hc)

lemma foldE_rel {α β : Type} (R : α → α → Prop) (hrefl : ∀ s, R s s)
    (htr : ∀ x y z, R x y → R y z → R x z)
    (step : α → β → Except PyErr α)
    (hstep : ∀ s b out, step s b = Except.ok out → R s out) :
    ∀ (l : List β) (s out : α), foldE step s l = Except.ok out → R s out := by
  intro l
  induction l with
  | nil =>
    intro s out h
    cases h
    exact hrefl s
  | cons b t ih =>
    intro s out h
    unfold foldE at h
    cases hsb : step s b with
    | error e => rw [hsb] at h; cases h
    | ok s2 =>
      rw [hsb] at h
      exact htr _ _ _ (hstep s b s2 hsb) (ih s2 out h)

lemma foldE_ok_of_inv {α β : Type} (inv : α → Prop)
    (step : α → β → Except PyErr α) :
    ∀ (l : List β),
    (∀ s b, b ∈ l → inv s → ∃ s2, step s b = Except.ok s2 ∧ inv s2) →
    ∀ s, inv s → ∃ out, foldE step s l = Except.ok out ∧ inv out := by
  intro l
  induction l with
  | nil => exact fun _ s hs => ⟨s, rfl, hs⟩
  | cons b t ih =>
    intro hstep s hs
    obtain ⟨s2, hs2, hinv2⟩ := hstep s b (List.mem_cons_self b t) hs
    obtain ⟨out, hout, hinvo⟩ :=
      ih (fun s3 c hc hi => hstep s3 c (List.mem_cons_of_mem b hc) hi) s2 hinv2
    refine ⟨out, ?_, hinvo⟩
    unfold foldE
    rw [hs2]
    exact hout

/-! ### Helper lemmas: skeleton preservation by the resolver -/

lemma skel_refl (x : CTx) : skel x x := ⟨rfl, rfl, rfl⟩

lemma SK_refl (l : List CTx) : SK l l :=
  List.forall₂_same.mpr fun x _ => skel_refl x

lemma SK_trans {a b c : List CTx} (h1 : SK a b) (h2 : SK b c) : SK a c := by
  induction h1 generalizing c with
  | nil =>
    cases h2
    exact List.Forall₂.nil
  | cons hxy h1t ih =>
    cases h2 with
    | cons hyz h2t =>
      exact List.Forall₂.cons
        ⟨hxy.1.trans hyz.1, hxy.2.1.trans hyz.2.1, hxy.2.2.trans hyz.2.2⟩
        (ih h2t)

lemma SK_set (txs : List CTx) : ∀ (k : Nat) (y : CTx),
    (∀ x, txs[k]? = some x → skel x y) → SK txs (txs.set k y) := by
  induction txs with
  | nil => intro k y _; exact List.Forall₂.nil
  | cons a t ih =>
    intro k y h
    cases k with
    | zero =>
      exact List.Forall₂.cons (h a (List.getElem?_cons_zero)) (SK_refl t)
    | succ k =>
      refine List.Forall₂.cons (skel_refl a) (ih k y fun x hx => h x ?_)
      rw [List.getElem?_cons_succ]
      exact hx

lemma setInput_SK (txs : List CTx) (k : Nat) (s : Str) :
    SK txs (setInput txs k s) := by
  unfold setInput
  cases h : txs[k]? with
  | none => exact SK_refl txs
  | some tx =>
    refine SK_set txs k _ fun x hx => ?_
    rw [h] at hx
    cases hx
    exact ⟨rfl, rfl, rfl⟩

lemma processWindowAt_SK (km : KeccakManager) (mdl : ZModel) (sIndex k : Nat)
    (txs : List CTx) (i : Nat) (out : List CTx)
    (h : processWindowAt km mdl sIndex k txs i = Except.ok out) : SK txs out := by
  cases hg : txs[k]? with
  | none =>
    simp only [processWindowAt, hg] at h
    cases h
    exact SK_refl txs
  | some tx =>
    cases hw : processWindow km mdl txs tx.input sIndex i with
    | error e =>
      simp only [processWindowAt, hg, hw] at h
      exact Except.noConfusion h
    | ok s =>
      simp only [processWindowAt, hg, hw] at h
      cases h
      exact setInput_SK txs k s

lemma processTxAt_SK (km : KeccakManager) (mdl : ZModel) (code? : Option Code)
    (txs : List CTx) (k : Nat) (out : List CTx)
    (h : processTxAt km mdl code? txs k = Except.ok out) : SK txs out := by
  cases hg : txs[k]? with
  | none =>
    simp only [processTxAt, hg] at h
    cases h
    exact SK_refl txs
  | some tx =>
    simp only [processTxAt, hg] at h
    by_cases hm : ¬ containsSub tx.input km.hash_matcher = true
    · rw [if_pos hm] at h
      cases h
      exact SK_refl txs
    · rw [if_neg hm] at h
      exact foldE_rel SK SK_refl (fun _ _ _ => SK_trans)
        (processWindowAt km mdl (sIndexOf code? tx) k)
        (fun s b o hs => processWindowAt_SK km mdl (sIndexOf code? tx) k s b o hs)
        _ txs out h

lemma shaRun_SK (km : KeccakManager) (mdl : ZModel) (code? : Option Code)
    (txs out : List CTx)
    (h : _replace_with_actual_sha km mdl txs code? = Except.ok out) : SK txs out := by
  unfold _replace_with_actual_sha at h
  exact foldE_rel SK SK_refl (fun _ _ _ => SK_trans)
    (processTxAt km mdl code?)
    (fun s b o hs => processTxAt_SK km mdl code? s b o hs)
    _ txs out h

/-! ### Helper lemmas: inert windows are left untouched -/

lemma processWindow_of_inert (km : KeccakManager) (mdl : ZModel) (txs : List CTx)
    (cur : Str) (sIndex i : Nat) (h : windowInert km mdl txs cur i = true) :
    processWindow km mdl txs cur sIndex i = Except.ok cur := by
  simp only [windowInert] at h
  simp only [processWindow]
  by_cases hc : ¬ containsSub (pySlice cur i (i + 64)) km.hash_matcher = true ∨
      (pySlice cur i (i + 64)).length ≠ 64
  · rw [if_pos hc]
  · rw [if_neg hc] at h ⊢
    split
    · rename_i hp
      simp only [hp] at h
      exact Bool.noConfusion h
    · rename_i n hp
      simp only [hp] at h
      rw [Option.isNone_iff_eq_none] at h
      rw [h]

lemma set_getElem?_self {α : Type} (l : List α) : ∀ (k : Nat) (x : α),
    l[k]? = some x → l.set k x = l := by
  induction l with
  | nil => intro k x h; simp at h
  | cons a t ih =>
    intro k x h
    cases k with
    | zero =>
      rw [List.getElem?_cons_zero] at h
      cases h
      rfl
    | succ k =>
      rw [List.getElem?_cons_succ] at h
      show a :: t.set k x = a :: t
      rw [ih k x h]

lemma processWindowAt_of_inert (km : KeccakManager) (mdl : ZModel)
    (sIndex k : Nat) (txs : List CTx) (i : Nat) (tx : CTx)
    (hg : txs[k]? = some tx)
    (hw : windowInert km mdl txs tx.input i = true) :
    processWindowAt km mdl sIndex k txs i = Except.ok txs := by
  simp only [processWindowAt, hg]
  rw [processWindow_of_inert km mdl txs tx.input sIndex i hw]
  simp only [setInput, hg]
  have he : ({ tx with input := tx.input } : CTx) = tx := rfl
  rw [he, set_getElem?_self txs k tx hg]

lemma processTxAt_of_inert (km : KeccakManager) (mdl : ZModel)
    (code? : Option Code) (txs : List CTx) (k : Nat) (tx : CTx)
    (hg : txs[k]? = some tx)
    (ht : txInert km mdl txs code? tx = true) :
    processTxAt km mdl code? txs k = Except.ok txs := by
  simp only [processTxAt, hg]
  unfold txInert at ht
  by_cases hm : ¬ containsSub tx.input km.hash_matcher = true
  · rw [if_pos hm]
  · rw [if_neg hm] at ht ⊢
    show foldE (processWindowAt km mdl (sIndexOf code? tx) k) txs
      (rangeStep (sIndexOf code? tx) tx.input.length 64) = Except.ok txs
    refine foldE_id _ _ _ fun i hi => ?_
    have hw : windowInert km mdl txs tx.input i = true :=
      List.all_eq_true.mp ht i hi
    exact processWindowAt_of_inert km mdl (sIndexOf code? tx) k txs i tx hg hw

lemma shaRun_of_inert (km : KeccakManager) (mdl : ZModel) (code? : Option Code)
    (txs : List CTx) (h : inertTxs km mdl code? txs = true) :
    _replace_with_actual_sha km mdl txs code? = Except.ok txs := by
  unfold inertTxs at h
  unfold _replace_with_actual_sha
  refine foldE_id _ _ _ fun k hk => ?_
  have hk2 : k < txs.length := List.mem_range.mp hk
  have hg : txs[k]? = some txs[k] := List.getElem?_eq_some.mpr ⟨hk2, rfl⟩
  have hmem : txs[k] ∈ txs := List.getElem_mem hk2
  have ht : txInert km mdl txs code? txs[k] = true :=
    List.all_eq_true.mp h _ hmem
  exact processTxAt_of_inert km mdl code? txs k txs[k] hg ht

/-! ### Helper lemmas: hex-digit invariant of the resolver -/

lemma digitChar_hex : ∀ d : Nat, d < 16 → (hexDigitVal (Nat.digitChar d)).isSome = true := by
  decide

lemma hex_cons {d : Char} {ds : Str} (hd : (hexDigitVal d).isSome = true)
    (hds : ∀ c ∈ ds, (hexDigitVal c).isSome = true) :
    ∀ c ∈ d :: ds, (hexDigitVal c).isSome = true := by
  intro c hc
  rcases List.mem_cons.mp hc with h1 | h2
  · rw [h1]; exact hd
  · exact hds c h2

lemma toDigitsCore_hex : ∀ (fuel n : Nat) (ds : Str),
    (∀ c ∈ ds, (hexDigitVal c).isSome = true) →
    ∀ c ∈ Nat.toDigitsCore 16 fuel n ds, (hexDigitVal c).isSome = true := by
  intro fuel
  induction fuel with
  | zero => intro n ds hds c hc; exact hds c hc
  | succ fuel ih =>
    intro n ds hds c hc
    have hd : (hexDigitVal (Nat.digitChar (n % 16))).isSome = true :=
      digitChar_hex (n % 16) (Nat.mod_lt n (by norm_num))
    simp only [Nat.toDigitsCore] at hc
    by_cases hz : n / 16 = 0
    · rw [if_pos hz] at hc
      exact hex_cons hd hds c hc
    · rw [if_neg hz] at hc
      exact ih (n / 16) (Nat.digitChar (n % 16) :: ds) (hex_cons hd hds) c hc

lemma toDigits_hex (n : Nat) :
    ∀ c ∈ Nat.toDigits 16 n, (hexDigitVal c).isSome = true :=
  toDigitsCore_hex (n + 1) n [] fun c hc => absurd hc (List.not_mem_nil c)

lemma parseHexAux_isSome : ∀ (s : Str) (acc : Nat),
    (∀ c ∈ s, (hexDigitVal c).isSome = true) →
    (parseHexAux s acc).isSome = true := by
  intro s
  induction s with
  | nil => intro acc _; rfl
  | cons c t ih =>
    intro acc h
    have hc : (hexDigitVal c).isSome = true := h c (List.mem_cons_self c t)
    unfold parseHexAux
    cases hv : hexDigitVal c with
    | none => rw [hv] at hc; cases hc
    | some d =>
      exact ih (acc * 16 + d) fun c2 hc2 => h c2 (List.mem_cons_of_mem c hc2)

lemma parseHexPy_isSome (s : Str) (hne : s ≠ [])
    (h : ∀ c ∈ s, (hexDigitVal c).isSome = true) :
    (parseHexPy s).isSome = true := by
  unfold parseHexPy
  have he : s.isEmpty = false := by
    cases s with
    | nil => exact absurd rfl hne
    | cons a t => rfl
  rw [he]
  simp only [Bool.false_eq_true, if_false]
  exact parseHexAux_isSome s 0 h

lemma drop_append_subset {α : Type} : ∀ (n : Nat) (A B : List α),
    (A ++ B).drop n ⊆ A.drop n ++ B := by
  intro n A
  induction A generalizing n with
  | nil =>
    intro B c hc
    simp only [List.drop_nil, List.nil_append]
    exact List.drop_subset n B hc
  | cons a A2 ih =>
    intro B c hc
    cases n with
    | zero => exact hc
    | succ n => exact ih n B hc

lemma mem_pySlice_drop (cur : Str) (i b : Nat) (h10 : 10 ≤ i) (c : Char)
    (hc : c ∈ pySlice cur i b) : c ∈ cur.drop 10 := by
  unfold pySlice at hc
  rw [List.drop_take] at hc
  have h1 : c ∈ cur.drop i := List.take_subset _ _ hc
  have h2 : cur.drop i = (cur.drop 10).drop (i - 10) := by
    rw [List.drop_drop]
    congr 1
    omega
  rw [h2] at h1
  exact List.drop_subset _ _ h1

lemma replaceAllAux_mem : ∀ (fuel : Nat) (s old new : Str) (c : Char),
    c ∈ replaceAllAux fuel s old new → c ∈ s ∨ c ∈ new := by
  intro fuel
  induction fuel with
  | zero => intro s old new c hc; exact Or.inl hc
  | succ fuel ih =>
    intro s old new c hc
    cases s with
    | nil =>
      unfold replaceAllAux at hc
      split at hc
      · exact Or.inr hc
      · exact absurd hc (List.not_mem_nil c)
    | cons a t =>
      unfold replaceAllAux at hc
      by_cases he : old.isEmpty = true
      · rw [if_pos he] at hc
        rcases List.mem_append.mp hc with h1 | h2
        · exact Or.inr h1
        · rcases List.mem_cons.mp h2 with h3 | h4
          · exact Or.inl (h3 ▸ List.mem_cons_self a t)
          · rcases ih t old new c h4 with h5 | h6
            · exact Or.inl (List.mem_cons_of_mem a h5)
            · exact Or.inr h6
      · rw [if_neg he] at hc
        by_cases hp : old.isPrefixOf (a :: t) = true
        · rw [if_pos hp] at hc
          rcases List.mem_append.mp hc with h1 | h2
          · exact Or.inr h1
          · rcases ih _ old new c h2 with h5 | h6
            · exact Or.inl (List.drop_subset _ _ h5)
            · exact Or.inr h6
        · rw [if_neg hp] at hc
          rcases List.mem_cons.mp hc with h3 | h4
          · exact Or.inl (h3 ▸ List.mem_cons_self a t)
          · rcases ih t old new c h4 with h5 | h6
            · exact Or.inl (List.mem_cons_of_mem a h5)
            · exact Or.inr h6

lemma processWindow_hex (km : KeccakManager) (mdl : ZModel) (txs : List CTx)
    (cur : Str) (sIndex i : Nat) (hs : 10 ≤ sIndex) (hi : 10 ≤ i)
    (hcur : hexFrom10 cur = true) :
    ∃ s2, processWindow km mdl txs cur sIndex i = Except.ok s2 ∧
      hexFrom10 s2 = true := by
  have hcur2 : ∀ c ∈ cur.drop 10, (hexDigitVal c).isSome = true := by
    unfold hexFrom10 at hcur
    exact fun c hc => List.all_eq_true.mp hcur c hc
  simp only [processWindow]
  by_cases hc : ¬ containsSub (pySlice cur i (i + 64)) km.hash_matcher = true ∨
      (pySlice cur i (i + 64)).length ≠ 64
  · rw [if_pos hc]
    exact ⟨cur, rfl, hcur⟩
  · rw [if_neg hc]
    push_neg at hc
    have hlen : (pySlice cur i (i + 64)).length = 64 := hc.2
    have hhex : ∀ c ∈ pySlice cur i (i + 64), (hexDigitVal c).isSome = true :=
      fun c hcc => hcur2 c (mem_pySlice_drop cur i (i + 64) hi c hcc)
    have hne : pySlice cur i (i + 64) ≠ [] := by
      intro h0
      rw [h0] at hlen
      cases hlen
    have hps := parseHexPy_isSome _ hne hhex
    split
    · rename_i hp
      rw [hp] at hps
      cases hps
    · rename_i n hp
      cases hss : searchSizes mdl txs (n % 2 ^ 256) km.store_function none with
      | none => exact ⟨cur, rfl, hcur⟩
      | some sv =>
        refine ⟨_, rfl, ?_⟩
        have hnew : ∀ c ∈ (List.drop 2
            (if (pyHex (km.find_concrete_keccak sv.1 sv.2)).length ≠ 66 then
              '0' :: 'x' :: (List.replicate
                  (66 - (pyHex (km.find_concrete_keccak sv.1 sv.2)).length) '0' ++
                (pyHex (km.find_concrete_keccak sv.1 sv.2)).drop 2)
            else pyHex (km.find_concrete_keccak sv.1 sv.2))),
            (hexDigitVal c).isSome = true := by
          by_cases h66 : (pyHex (km.find_concrete_keccak sv.1 sv.2)).length ≠ 66
          · rw [if_pos h66]
            intro c hcc
            rcases List.mem_append.mp hcc with h1 | h2
            · rw [(List.mem_replicate.mp h1).2]
              decide
            · exact toDigits_hex _ c h2
          · rw [if_neg h66]
            intro c hcc
            exact toDigits_hex _ c hcc
        unfold hexFrom10
        rw [List.all_eq_true]
        intro c hcc
        have hsub := drop_append_subset 10 (cur.take sIndex)
          (replaceAll (cur.drop sIndex) (pySlice cur i (64 + i)) _) hcc
        rcases List.mem_append.mp hsub with h1 | h2
        · rw [List.drop_take] at h1
          exact hcur2 c (List.take_subset _ _ h1)
        · unfold replaceAll at h2
          rcases replaceAllAux_mem _ _ _ _ c h2 with h3 | h4
          · have hdd : cur.drop sIndex = (cur.drop 10).drop (sIndex - 10) := by
              rw [List.drop_drop]
              congr 1
              omega
            rw [hdd] at h3
            exact hcur2 c (List.drop_subset _ _ h3)
          · exact hnew c h4

lemma sIndexOf_ge (code? : Option Code) (tx : CTx) : 10 ≤ sIndexOf code? tx := by
  cases code? with
  | none => exact Nat.le_refl 10
  | some code =>
    simp only [sIndexOf]
    split
    · omega
    · exact Nat.le_refl 10

lemma rangeStep_ge (a b s i : Nat) (h : i ∈ rangeStep a b s) : a ≤ i := by
  unfold rangeStep at h
  rcases List.mem_map.mp h with ⟨j, _, hj⟩
  omega

lemma processWindowAt_hex (km : KeccakManager) (mdl : ZModel) (sIndex k : Nat)
    (txs : List CTx) (i : Nat) (hs : 10 ≤ sIndex) (hi : 10 ≤ i)
    (hinv : ∀ tx ∈ txs, hexFrom10 tx.input = true) :
    ∃ txs2, processWindowAt km mdl sIndex k txs i = Except.ok txs2 ∧
      ∀ tx ∈ txs2, hexFrom10 tx.input = true := by
  cases hg : txs[k]? with
  | none => exact ⟨txs, by simp only [processWindowAt, hg], hinv⟩
  | some tx =>
    have htx : hexFrom10 tx.input = true := hinv tx (List.getElem?_mem hg)
    obtain ⟨s2, hw, hs2⟩ := processWindow_hex km mdl txs tx.input sIndex i hs hi htx
    refine ⟨setInput txs k s2, by simp only [processWindowAt, hg, hw], ?_⟩
    intro tx2 htx2
    unfold setInput at htx2
    rw [hg] at htx2
    rcases List.mem_or_eq_of_mem_set htx2 with h1 | h2
    · exact hinv tx2 h1
    · rw [h2]
      exact hs2

lemma processTxAt_hex (km : KeccakManager) (mdl : ZModel) (code? : Option Code)
    (txs : List CTx) (k : Nat)
    (hinv : ∀ tx ∈ txs, hexFrom10 tx.input = true) :
    ∃ txs2, processTxAt km mdl code? txs k = Except.ok txs2 ∧
      ∀ tx ∈ txs2, hexFrom10 tx.input = true := by
  cases hg : txs[k]? with
  | none => exact ⟨txs, by simp only [processTxAt, hg], hinv⟩
  | some tx =>
    by_cases hm : ¬ containsSub tx.input km.hash_matcher = true
    · exact ⟨txs, by simp only [processTxAt, hg]; rw [if_pos hm], hinv⟩
    · obtain ⟨out, hout, hinvo⟩ :=
        foldE_ok_of_inv (fun l => ∀ tx2 ∈ l, hexFrom10 tx2.input = true)
          (processWindowAt km mdl (sIndexOf code? tx) k)
          (rangeStep (sIndexOf code? tx) tx.input.length 64)
          (fun s b hb hi2 =>
            processWindowAt_hex km mdl (sIndexOf code? tx) k s b
              (sIndexOf_ge code? tx)
              (le_trans (sIndexOf_ge code? tx) (rangeStep_ge _ _ _ _ hb)) hi2)
          txs hinv
      refine ⟨out, ?_, hinvo⟩
      simp only [processTxAt, hg]
      rw [if_neg hm]
      exact hout

lemma shaRun_hex (km : KeccakManager) (mdl : ZModel) (code? : Option Code)
    (txs : List CTx) (hinv : ∀ tx ∈ txs, hexFrom10 tx.input = true) :
    ∃ out, _replace_with_actual_sha km mdl txs code? = Except.ok out ∧
      ∀ tx ∈ out, hexFrom10 tx.input = true := by
  unfold _replace_with_actual_sha
  exact foldE_ok_of_inv (fun l => ∀ tx ∈ l, hexFrom10 tx.input = true)
    (processTxAt km mdl code?) (List.range txs.length)
    (fun s b _ hi => processTxAt_hex km mdl code? s b hi) txs hinv

/-! ### Helper lemmas: constraints-object store -/

lemma appendRef_length (st : CStore) (r2 : Nat) (c : Constraint) :
    (appendRef st r2 c).lists.length = st.lists.length := by
  unfold appendRef
  exact List.length_set st.lists r2 _

lemma readRef_appendAllRef_ne (cs : List Constraint) : ∀ (st : CStore) (r r2 : Nat),
    r ≠ r2 → readRef (appendAllRef st r2 cs) r = readRef st r := by
  induction cs with
  | nil => intro st r r2 _; rfl
  | cons c t ih =>
    intro st r r2 hne
    show readRef (appendAllRef (appendRef st r2 c) r2 t) r = readRef st r
    rw [ih (appendRef st r2 c) r r2 hne]
    unfold appendRef readRef
    rw [List.getElem?_set_ne (fun h => hne h.symm)]

lemma readRef_appendAllRef_self (cs : List Constraint) : ∀ (st : CStore) (r2 : Nat),
    r2 < st.lists.length →
    readRef (appendAllRef st r2 cs) r2 = readRef st r2 ++ cs := by
  induction cs with
  | nil => intro st r2 _; rw [List.append_nil]; rfl
  | cons c t ih =>
    intro st r2 hlt
    show readRef (appendAllRef (appendRef st r2 c) r2 t) r2 = _
    rw [ih (appendRef st r2 c) r2 (by rw [appendRef_length]; exact hlt)]
    have h1 : readRef (appendRef st r2 c) r2 = readRef st r2 ++ [c] := by
      unfold appendRef readRef
      rw [List.getElem?_set_self hlt]
      rfl
    rw [h1, List.append_assoc]
    rfl

lemma readRef_copy_orig (st : CStore) (r : Nat) (h : r < st.lists.length) :
    readRef (copyRef st r).1 r = readRef st r := by
  unfold copyRef readRef
  rw [List.getElem?_append_left h]

lemma readRef_copy_fresh (st : CStore) (r : Nat) :
    readRef (copyRef st r).1 (copyRef st r).2 = readRef st r := by
  unfold copyRef readRef
  have h : (st.lists ++ [(st.lists[r]?).getD []])[st.lists.length]? =
      some ((st.lists[r]?).getD []) := by
    rw [List.getElem?_append]
    simp
  rw [h]
  rfl

/-! ### Claim theorems -/

/-- Claim C1, counterexample: the claim states the per-account bound is
`10^23` and that a starting balance of exactly `10^23` is accepted.  On a
one-account world state the builder in fact emits the bound `10^20`
(`UGE(BitVecVal(100000000000000000000, 256), startingBalance)`, source
comment "less than 100 ETH"), and pinning the balance to exactly `10^23`
makes the emitted constraint set unsatisfiable. -/
theorem claim_C1_counterexample :
    (_set_minimisation_constraints [] [] [] 5000 ws1).1 = [balBound ("w0") 45054] ∧
    ¬ SatC ((_set_minimisation_constraints [] [] [] 5000 ws1).1 ++
      [balPin ("w0") 45054 (10 ^ 23)]) := by
  constructor
  · decide
  · have he : (_set_minimisation_constraints [] [] [] 5000 ws1).1 ++
        [balPin ("w0") 45054 (10 ^ 23)] =
        [balBound ("w0") 45054, balPin ("w0") 45054 (10 ^ 23)] := by decide
    rw [he]
    exact unsat_pin_gt ("w0") 45054 (10 ^ 23) (by norm_num) (by norm_num)

/-- Claim C1 (amended): for every account in the world state (including
accounts never referenced by any transaction in the sequence), the
minimization constraint builder appends a constraint bounding that account's
starting-balance expression above by `10^20` (the claim said `10^23`);
consequently a starting balance constrained to be exactly `10^20` is
satisfiable together with that bound, while one constrained strictly above
`10^20` (and below the 256-bit wrap) is unsatisfiable. -/
theorem claim_C1 :
    (∀ (ts : List BaseTransaction) (cs : List Constraint) (mi : List SExpr)
        (ms : Nat) (ws : WorldState) (p : Nat × Account), p ∈ ws.accounts →
        balBound ws.sbId p.2.address ∈ (_set_minimisation_constraints ts cs mi ms ws).1) ∧
    (∀ (wsId : String) (a c : Nat), c ≤ 100000000000000000000 →
        SatC [balBound wsId a, balPin wsId a c]) ∧
    (∀ (wsId : String) (a c : Nat), 100000000000000000000 < c → c < 2 ^ 256 →
        ¬ SatC [balBound wsId a, balPin wsId a c]) := by
  refine ⟨?_, sat_pin_le, unsat_pin_gt⟩
  intro ts cs mi ms ws p hp
  unfold _set_minimisation_constraints
  refine List.mem_append.mpr (Or.inr ?_)
  unfold minimisationAppends
  refine List.mem_append.mpr (Or.inr ?_)
  exact List.mem_map.mpr ⟨p, hp, rfl⟩

/-- Claim C1 witness: the amended theorem applied to the concrete
one-account world state `ws1` at the boundary values. -/
theorem claim_C1_witness :
    balBound ("w0") 45054 ∈ (_set_minimisation_constraints [] [] [] 5000 ws1).1 ∧
    SatC [balBound ("w0") 45054, balPin ("w0") 45054 100000000000000000000] ∧
    ¬ SatC [balBound ("w0") 45054, balPin ("w0") 45054 100000000000000000001] :=
  ⟨claim_C1.1 [] [] [] 5000 ws1 (45054, acct1) (by decide),
   claim_C1.2.1 ("w0") 45054 100000000000000000000 (Nat.le_refl _),
   claim_C1.2.2 ("w0") 45054 100000000000000000001 (by norm_num) (by norm_num)⟩

/-- Claim C2, counterexample: two consecutive `get_model` calls with
content-equal arguments, on a constraint set the solver reports unsatisfiable,
each invoke the solver once (two invocations in total): `lru_cache` stores
nothing when the wrapped call raises `UnsatError`, so the claim's "at most
once across the two calls" fails. -/
theorem claim_C2_counterexample :
    (get_model oracleUnsat0 1000 1000000 (SolveCache.mk []) csX [] [] true).2.2 = 1 ∧
    (get_model oracleUnsat0 1000 1000000
      (get_model oracleUnsat0 1000 1000000 (SolveCache.mk []) csX [] [] true).2.1
      csX [] [] true).2.2 = 1 :=
  ⟨rfl, rfl⟩

/-- Claim C2 (amended): for every two calls to `get_model` whose constraint
set, minimize list and maximize list are content-equal, provided the first
call succeeds (returns a model), the external solver is invoked at most once
across the two calls: the second call (even under a different remaining time
budget) is served from the cache with the first call's model and zero solver
invocations.  A first call that fails with `UnsatError` is not cached by
`lru_cache`, so repeating it re-invokes the solver. -/
theorem claim_C2 (oracle : SolverOracle) (st tr st2 tr2 : Int)
    (cache : SolveCache) (cs : List Constraint) (mi ma : List SExpr)
    (m : ZModel) (cache1 : SolveCache) (n1 : Nat)
    (h1 : get_model oracle st tr cache cs mi ma true = (Except.ok m, cache1, n1)) :
    n1 ≤ 1 ∧
    get_model oracle st2 tr2 cache1 cs mi ma true = (Except.ok m, cache1, 0) := by
  cases hl : cacheLookup cache (cs, mi, ma, true) with
  | some m2 =>
    simp only [get_model, hl] at h1
    injection h1 with ha hb
    injection ha with ha2
    injection hb with hb1 hb2
    subst ha2
    subst hb1
    subst hb2
    refine ⟨Nat.zero_le 1, ?_⟩
    simp only [get_model, hl]
  | none =>
    simp only [get_model, hl] at h1
    cases hr : (getModelCore oracle st tr cs mi ma true).1 with
    | ok m2 =>
      simp only [hr] at h1
      injection h1 with ha hb
      injection ha with ha2
      injection hb with hb1 hb2
      subst ha2
      subst hb1
      subst hb2
      constructor
      · exact getModelCore_count_le_one oracle st tr cs mi ma true
      · have hl2 : cacheLookup (SolveCache.mk (((cs, mi, ma, true), m2) :: cache.entries))
            (cs, mi, ma, true) = some m2 := by
          unfold cacheLookup
          rw [List.find?_cons_of_pos _ (by simp)]
          rfl
        simp only [get_model, hl2]
    | error e =>
      simp only [hr] at h1
      injection h1 with ha hb
      exact Except.noConfusion ha

/-- Claim C2 witness: the amended theorem applied to a concrete first call
that succeeds, with a different time budget on the second call. -/
theorem claim_C2_witness :
    (1 : Nat) ≤ 1 ∧
    get_model oracleSatM0 77 99 cache1fix csX [] [] true =
      (Except.ok m0, cache1fix, 0) :=
  claim_C2 oracleSatM0 1000 1000000 77 99 (SolveCache.mk []) csX [] [] m0
    cache1fix 1 rfl

/-- Claim C3: with the execution-budget flag set, the effective solver
timeout equals `min(solver_timeout, time_remaining - 500)` — the result
depends on the oracle only through a query at exactly that timeout (and at
the submitted constraints/objectives) — and whenever that value is ≤ 0 the
call fails with `UnsatError` immediately, with zero solver invocations. -/
theorem claim_C3 (st tr : Int) (cs : List Constraint) (mi ma : List SExpr) :
    (∀ o o2 : SolverOracle,
        o.check (submittedConstraints cs) mi ma (min st (tr - 500)) =
          o2.check (submittedConstraints cs) mi ma (min st (tr - 500)) →
        getModelCore o st tr cs mi ma true = getModelCore o2 st tr cs mi ma true) ∧
    (min st (tr - 500) ≤ 0 →
        ∀ o : SolverOracle,
        getModelCore o st tr cs mi ma true = (Except.error PyErr.unsat, 0)) := by
  have heff : effTimeout true st tr = min st (tr - 500) := rfl
  constructor
  · intro o o2 h
    refine getModelCore_oracle_congr o o2 st tr cs mi ma true ?_
    rw [heff]
    exact h
  · intro hle o
    unfold getModelCore
    rw [if_pos ⟨rfl, by rw [heff]; exact hle⟩]

/-- Claim C3 witness: the theorem applied at a concrete oracle, and at a
concrete exhausted budget (`time_remaining = 0`, so the effective timeout is
`-500 ≤ 0`). -/
theorem claim_C3_witness :
    getModelCore oracleSatM0 1000 1000000 csX [] [] true =
      getModelCore oracleSatM0 1000 1000000 csX [] [] true ∧
    getModelCore oracleSatM0 1000 0 csX [] [] true = (Except.error PyErr.unsat, 0) :=
  ⟨(claim_C3 1000 1000000 csX [] []).1 oracleSatM0 oracleSatM0 rfl,
   (claim_C3 1000 0 csX [] []).2 (by decide) oracleSatM0⟩

/-- Claim C4: a constraint set containing a literal `False` makes `get_model`
fail with `UnsatError` without invoking the external solver, and the
submitted constraint list (after stripping boolean literals) never contains
a boolean-literal constraint. -/
theorem claim_C4 (oracle : SolverOracle) (st tr : Int) (cs : List Constraint)
    (mi ma : List SExpr) (enforce : Bool) (h : Constraint.lit false ∈ cs) :
    getModelCore oracle st tr cs mi ma enforce = (Except.error PyErr.unsat, 0) ∧
    (∀ c ∈ submittedConstraints cs, ∀ b : Bool, c ≠ Constraint.lit b) := by
  refine ⟨?_, submitted_not_lit cs⟩
  simp only [getModelCore]
  by_cases h1 : enforce = true ∧ effTimeout enforce st tr ≤ 0
  · rw [if_pos h1]
  · rw [if_neg h1, if_pos (hasLitFalse_of_mem h)]

/-- Claim C4 witness: the theorem applied to the concrete constraint list
`[False, True, x ≥ 0]`. -/
theorem claim_C4_witness :
    getModelCore oracleSatM0 1000 1000000 cs4 [] [] true =
      (Except.error PyErr.unsat, 0) ∧
    (∀ c ∈ submittedConstraints cs4, ∀ b : Bool, c ≠ Constraint.lit b) :=
  claim_C4 oracleSatM0 1000 1000000 cs4 [] [] true (by decide)

/-- Claim C5: when the solver is reached (positive budget, no literal-false
constraint), a `sat` check result returns the model (with one solver
invocation); `unknown` (e.g. timeout) and a genuine `unsat` both fail with
the same `UnsatError` error value, so the caller cannot distinguish them. -/
theorem claim_C5 (oracle : SolverOracle) (st tr : Int) (cs : List Constraint)
    (mi ma : List SExpr) (enforce : Bool) (m : ZModel)
    (h1 : enforce = true → 0 < min st (tr - 500))
    (h2 : Constraint.lit false ∉ cs) :
    (oracle.check (submittedConstraints cs) mi ma (effTimeout enforce st tr) =
        CheckResult.sat m →
      getModelCore oracle st tr cs mi ma enforce = (Except.ok m, 1)) ∧
    (oracle.check (submittedConstraints cs) mi ma (effTimeout enforce st tr) =
        CheckResult.unknown →
      getModelCore oracle st tr cs mi ma enforce = (Except.error PyErr.unsat, 1)) ∧
    (oracle.check (submittedConstraints cs) mi ma (effTimeout enforce st tr) =
        CheckResult.unsat →
      getModelCore oracle st tr cs mi ma enforce = (Except.error PyErr.unsat, 1)) := by
  have hng : ¬ (enforce = true ∧ effTimeout enforce st tr ≤ 0) := by
    rintro ⟨he, hle⟩
    subst he
    have h3 := h1 rfl
    have h4 : effTimeout true st tr = min st (tr - 500) := rfl
    rw [h4] at hle
    omega
  have hlf : ¬ hasLitFalse cs = true := by
    rw [hasLitFalse_eq_false h2]
    exact Bool.false_ne_true
  refine ⟨?_, ?_, ?_⟩
  · intro hc
    simp only [getModelCore]
    rw [if_neg hng, if_neg hlf, hc]
  · intro hc
    simp only [getModelCore]
    rw [if_neg hng, if_neg hlf, hc]
  · intro hc
    simp only [getModelCore]
    rw [if_neg hng, if_neg hlf, hc]

/-- Claim C5 witness: the theorem applied to three concrete oracles that
report `sat`, `unknown` and `unsat` respectively. -/
theorem claim_C5_witness :
    getModelCore oracleSatM0 1000 1000000 csX [] [] true = (Except.ok m0, 1) ∧
    getModelCore oracleUnknown0 1000 1000000 csX [] [] true =
      (Except.error PyErr.unsat, 1) ∧
    getModelCore oracleUnsat0 1000 1000000 csX [] [] true =
      (Except.error PyErr.unsat, 1) :=
  ⟨(claim_C5 oracleSatM0 1000 1000000 csX [] [] true m0
      (fun _ => by decide) (by decide)).1 rfl,
   (claim_C5 oracleUnknown0 1000 1000000 csX [] [] true m0
      (fun _ => by decide) (by decide)).2.1 rfl,
   (claim_C5 oracleUnsat0 1000 1000000 csX [] [] true m0
      (fun _ => by decide) (by decide)).2.2 rfl⟩

/-- Claim C6: for every global state with a non-empty transaction sequence
for which extraction succeeds, `get_transaction_sequence` emits exactly one
concrete step per symbolic transaction in the same order (the step at each
position agrees with `_get_concrete_transaction` of the solved model at that
position on every field except the resolver-rewritten `input`), and the
emitted initial state's address list is exactly the pre-first-transaction
world state's account address list (hex-rendered, order preserved). -/
theorem claim_C6 (km : KeccakManager) (oracle : SolverOracle) (st tr : Int)
    (gs : GlobalState) (cs : List Constraint) (r : TxOut)
    (t0 : BaseTransaction) (rest : List BaseTransaction)
    (hts : gs.world_state.transaction_sequence = t0 :: rest)
    (hrun : get_transaction_sequence km oracle st tr gs cs = Except.ok r) :
    r.steps.length = (t0 :: rest).length ∧
    r.initialState.accounts.map Prod.fst =
      t0.world_state.accounts.map (fun p => pyHex p.1) ∧
    ∃ m : ZModel, SK ((t0 :: rest).map (_get_concrete_transaction m)) r.steps := by
  simp only [get_transaction_sequence, hts] at hrun
  split at hrun
  · exact Except.noConfusion hrun
  · rename_i model hmod
    split at hrun
    · exact Except.noConfusion hrun
    · rename_i steps hsha
      injection hrun with hr2
      subst hr2
      have hsk := shaRun_SK km model (codeOf t0) _ steps hsha
      refine ⟨?_, ?_, model, hsk⟩
      · show steps.length = (t0 :: rest).length
        have hlen := List.Forall₂.length_eq hsk
        rw [← hlen, List.length_map]
      · show (_get_concrete_state t0.world_state.accounts
            (minPriceDict model t0.world_state)).accounts.map Prod.fst =
          t0.world_state.accounts.map (fun p => pyHex p.1)
        unfold _get_concrete_state
        rw [List.map_map]
        rfl

/-- Claim C6 witness: the theorem applied to a concrete one-transaction
extraction run under an always-sat oracle. -/
theorem claim_C6_witness :
    r6.steps.length = ([tx6] : List BaseTransaction).length ∧
    r6.initialState.accounts.map Prod.fst =
      tx6.world_state.accounts.map (fun p => pyHex p.1) ∧
    ∃ m : ZModel, SK ([tx6].map (_get_concrete_transaction m)) r6.steps :=
  claim_C6 km9 oracleSatM0 1000 1000000 gs6 [] r6 tx6 [] rfl (by decide)

/-- Claim C7: for a contract-creation-kind transaction the emitted step's
address field is the empty string and its input is `0x` followed by the
deployment bytecode followed by the model-evaluated constructor-argument
bytes; with no constructor arguments the input is exactly `0x` plus the
bytecode. -/
theorem claim_C7 (m : ZModel) (t : BaseTransaction) (code : Code)
    (hk : t.kind = TxKind.creation code) :
    (_get_concrete_transaction m t).address = [] ∧
    (_get_concrete_transaction m t).input =
      '0' :: 'x' :: (code.bytecode ++
        ((t.call_data.concrete m).map byteHex).foldr (fun x acc => x ++ acc) []) ∧
    (t.call_data.bytes = [] →
      (_get_concrete_transaction m t).input = '0' :: 'x' :: code.bytecode) := by
  refine ⟨?_, ?_, ?_⟩
  · simp only [_get_concrete_transaction, hk]
  · simp only [_get_concrete_transaction, hk]
  · intro hb
    simp only [_get_concrete_transaction, hk, Calldata.concrete, hb]
    simp

/-- Claim C7 witness: a concrete creation transaction with bytecode `6080`
and no constructor arguments. -/
theorem claim_C7_witness :
    (_get_concrete_transaction m0 tx7).address = [] ∧
    (_get_concrete_transaction m0 tx7).input =
      '0' :: 'x' :: (code7.bytecode ++
        ((tx7.call_data.concrete m0).map byteHex).foldr (fun x acc => x ++ acc) []) ∧
    (tx7.call_data.bytes = [] →
      (_get_concrete_transaction m0 tx7).input = '0' :: 'x' :: code7.bytecode) :=
  claim_C7 m0 tx7 code7 rfl

/-- Claim C8, counterexample: on a transaction whose marker window contains
the non-hex character `g`, `_replace_with_actual_sha` raises `ValueError`
from `int(data_slice, 16)` — it does not terminate without error on every
transaction list. -/
theorem claim_C8_counterexample :
    _replace_with_actual_sha km9 m9 [tx8] none = Except.error PyErr.valueError := by
  decide

/-- Claim C8 (amended): for every transaction list whose inputs are
hexadecimal from offset 10 on (true of every extractor-emitted input) and
every model, `_replace_with_actual_sha` terminates without raising; and any
scanned window that is skipped or yields no candidate preimage at any
registered width — evaluation failure at one width being caught, never
escaping — leaves the input unchanged at that step. -/
theorem claim_C8 (km : KeccakManager) (mdl : ZModel) (code? : Option Code)
    (txs : List CTx) (hhex : ∀ tx ∈ txs, hexFrom10 tx.input = true) :
    (∃ r, _replace_with_actual_sha km mdl txs code? = Except.ok r) ∧
    (∀ (txs2 : List CTx) (cur : Str) (sIndex i : Nat),
      windowInert km mdl txs2 cur i = true →
      processWindow km mdl txs2 cur sIndex i = Except.ok cur) := by
  refine ⟨?_, fun txs2 cur sIndex i h =>
    processWindow_of_inert km mdl txs2 cur sIndex i h⟩
  obtain ⟨out, hout, _⟩ := shaRun_hex km mdl code? txs hhex
  exact ⟨out, hout⟩

/-- Claim C8 witness: the amended theorem applied to a concrete transaction
list with one marker window. -/
theorem claim_C8_witness :
    (∃ r, _replace_with_actual_sha km9 m9 [tx9] none = Except.ok r) ∧
    (∀ (txs2 : List CTx) (cur : Str) (sIndex i : Nat),
      windowInert km9 m9 txs2 cur i = true →
      processWindow km9 m9 txs2 cur sIndex i = Except.ok cur) :=
  claim_C8 km9 m9 none [tx9] (by decide)

/-- Claim C9, counterexample: the resolver is not idempotent.  With
mythril's marker shape (`fffffff`), a first pass substitutes a digest that
itself re-matches the marker; under a model whose keccak-inverse
interpretation also evaluates at that digest (z3 models evaluate interpreted
uninterpreted functions at any point through their else-branch), the second
pass rewrites the input again. -/
theorem claim_C9_counterexample :
    _replace_with_actual_sha km9 m9 [tx9] none = Except.ok r9a ∧
    _replace_with_actual_sha km9 m9 r9a none = Except.ok r9b ∧
    r9a ≠ r9b :=
  ⟨by decide, by decide, by decide⟩

/-- Claim C9 (amended): re-running `_replace_with_actual_sha` on the result
of a first run (same model and code argument) changes no transaction's
input, provided the first run's output is inert: no residual scanned window
both matches the marker and yields a candidate preimage — in particular
whenever no substituted digest re-matches the marker pattern.  (Without that
proviso idempotence fails, per the counterexample.) -/
theorem claim_C9 (km : KeccakManager) (mdl : ZModel) (code? : Option Code)
    (txs r : List CTx)
    (h1 : _replace_with_actual_sha km mdl txs code? = Except.ok r)
    (h2 : inertTxs km mdl code? r = true) :
    _replace_with_actual_sha km mdl r code? = Except.ok r :=
  shaRun_of_inert km mdl code? r h2

/-- Claim C9 witness: the amended theorem applied to a concrete first run
whose output is inert (its substituted digest contains no marker). -/
theorem claim_C9_witness :
    _replace_with_actual_sha km9 m9 r9b none = Except.ok r9b :=
  claim_C9 km9 m9 none r9a r9b (by decide) (by decide)

/-- Claim C10: `get_transaction_sequence` never mutates the caller's
constraints object — it calls `constraints.copy()` and
`_set_minimisation_constraints` appends only to the copy — so after the
call the caller's object holds exactly the constraints it held before,
while the fresh copy holds them extended by the minimisation appends. -/
theorem claim_C10 (gs : GlobalState) (store : CStore) (r : Nat)
    (h : r < store.lists.length) :
    readRef (gtsConstraintStoreEffect gs store r) r = readRef store r ∧
    readRef (gtsConstraintStoreEffect gs store r) store.lists.length =
      readRef store r ++
        minimisationAppends gs.world_state.transaction_sequence 5000
          gs.world_state := by
  have hne : r ≠ (copyRef store r).2 := by
    show r ≠ store.lists.length
    omega
  have hlt : (copyRef store r).2 < (copyRef store r).1.lists.length := by
    show store.lists.length < (store.lists ++ [readRef store r]).length
    rw [List.length_append, List.length_singleton]
    omega
  constructor
  · have h1 := readRef_appendAllRef_ne
      (minimisationAppends gs.world_state.transaction_sequence 5000 gs.world_state)
      (copyRef store r).1 r (copyRef store r).2 hne
    rw [readRef_copy_orig store r h] at h1
    exact h1
  · have h2 := readRef_appendAllRef_self
      (minimisationAppends gs.world_state.transaction_sequence 5000 gs.world_state)
      (copyRef store r).1 (copyRef store r).2 hlt
    rw [readRef_copy_fresh store r] at h2
    exact h2

/-- Claim C10 witness: the theorem applied to a concrete one-object store
and the concrete global state `gs6`. -/
theorem claim_C10_witness :
    readRef (gtsConstraintStoreEffect gs6 store10 0) 0 = readRef store10 0 ∧
    readRef (gtsConstraintStoreEffect gs6 store10 0) store10.lists.length =
      readRef store10 0 ++
        minimisationAppends gs6.world_state.transaction_sequence 5000
          gs6.world_state :=
  claim_C10 gs6 store10 0 (by decide)

end Myth
